import Mathlib

/-!
Verification of the URL/image pipeline of `backend/app.py` (xlsx image zipper).

The development shallowly embeds the pure core of the program:
* the URL normalizer `build_fetch_plan` with its Drive / Dropbox / tracking
  branches, on top of a model of Python's `urllib.parse` (`urlparse`,
  `urlunparse`, `parse_qs`);
* the header-column scanner `find_final_col` over a worksheet model;
* the cell URL extractor `extract_url_from_cell`;
* the per-sheet result walk of `upload_excel` (sequence numbering: entries
  `final_image_<n>.jpg` plus failure records), with PIL decoding modelled by
  an abstract payload type (the app sets `ImageFile.LOAD_TRUNCATED_IMAGES = True`);
* a small-step model of the semaphore-gated concurrent fetching
  (`asyncio.Semaphore(10)` created per sheet, `fetch_one` trying candidates
  in order while holding the gate).

All definitions are executable, so concrete runs are settled by `decide`/`rfl`.
-/

/-! ## Basic character/string utilities (Python semantics) -/

/-- Characters removed by Python's `str.strip()` with no argument
(ASCII whitespace; the rare non-ASCII whitespace code points that CPython
also strips do not occur in the inputs considered here). -/
def pySpace (c : Char) : Bool :=
  c == ' ' || c == '\t' || c == '\n' || c == '\x0d' || c == '\x0b' || c == '\x0c'

/-- `str.strip()` on a character list. -/
def stripList (l : List Char) : List Char :=
  ((l.dropWhile pySpace).reverse.dropWhile pySpace).reverse

/-- Python `str.strip()`. -/
def pyStrip (s : String) : String := String.mk (stripList s.toList)

/-- ASCII lower-casing of one character (model of `str.lower()`: the strings
lowered by the program are ASCII). -/
def asciiLower (c : Char) : Char :=
  if 'A' ≤ c && c ≤ 'Z' then Char.ofNat (c.toNat + 32) else c

/-- ASCII lower-casing of a string. -/
def asciiLowerStr (s : String) : String := String.mk (s.toList.map asciiLower)

/-- Does `l` start with the list `pre`? -/
def listStarts : List Char → List Char → Bool
  | [], _ => true
  | _ :: _, [] => false
  | a :: as, b :: bs => if a == b then listStarts as bs else false

/-- Python `str.startswith`. -/
def pyStarts (s pre : String) : Bool := listStarts pre.toList s.toList

/-- Does `l` contain `needle` as a contiguous sublist?  (Python `in` on str.) -/
def listHasSub (needle : List Char) : List Char → Bool
  | [] => listStarts needle []
  | c :: cs => listStarts needle (c :: cs) || listHasSub needle cs

/-- Python `needle in haystack` on strings. -/
def strContains (needle haystack : String) : Bool :=
  listHasSub needle.toList haystack.toList

/-- First index of character `c`, Python `str.find` (as an `Option`). -/
def idxOf? (c : Char) : List Char → Option Nat
  | [] => none
  | a :: as => if a == c then some 0 else (idxOf? c as).map (· + 1)

/-- Last index of character `c`, Python `str.rfind` (as an `Option`). -/
def lastIdxOf? (c : Char) (l : List Char) : Option Nat :=
  (idxOf? c l.reverse).map (fun i => l.length - 1 - i)

/-- First index of `c` at position `start` or later, Python `str.find(c, start)`. -/
def findFrom (c : Char) (start : Nat) (l : List Char) : Option Nat :=
  (idxOf? c (l.drop start)).map (· + start)

/-- Python `str.split(sep, 1)`: split at the first occurrence of `sep`. -/
def splitFirst (c : Char) : List Char → Option (List Char × List Char)
  | [] => none
  | a :: as =>
    if a == c then some ([], as)
    else (splitFirst c as).map (fun pr => (a :: pr.1, pr.2))

/-- Python `str.split(sep)` on one separator character:
`"a//b".split("/") = ["a", "", "b"]`, `"".split("/") = [""]`. -/
def splitChar (sep : Char) : List Char → List (List Char)
  | [] => [[]]
  | c :: cs =>
    match splitChar sep cs with
    | [] => [[]]
    | r :: rs => if c == sep then [] :: r :: rs else (c :: r) :: rs

/-! ## Model of `urllib.parse` -/

/-- Result of Python's `urlparse` (a `ParseResult`). -/
structure PyUrl where
  scheme : String
  netloc : String
  path : String
  params : String
  query : String
  fragment : String
deriving DecidableEq

deriving instance DecidableEq for Except

/-- Characters allowed in a URL scheme (`urllib.parse.scheme_chars`). -/
def isSchemeChar (c : Char) : Bool :=
  c.isAlpha || c.isDigit || c == '+' || c == '-' || c == '.'

/-- `urlsplit` removes tab, carriage return and newline from the URL
(`_UNSAFE_URL_BYTES_TO_REMOVE`). -/
def removeUnsafe (l : List Char) : List Char :=
  l.filter (fun c => !(c == '\t' || c == '\x0d' || c == '\n'))

/-- Scheme extraction step of `urlsplit`: if the text before the first `:`
is a valid scheme (first char alphabetic, all chars scheme chars), it is
split off and lower-cased. -/
def splitScheme (l : List Char) : String × List Char :=
  match idxOf? ':' l with
  | some i =>
    if 0 < i && (l.headD ' ').isAlpha && (l.take i).all isSchemeChar then
      (String.mk ((l.take i).map asciiLower), l.drop (i + 1))
    else ("", l)
  | none => ("", l)

/-- Netloc extraction step of `urlsplit`: after `//`, up to the next
`/`, `?` or `#`; raises `ValueError` (here: `Except.error`) on a `[`/`]`
bracket mismatch, the parse failure reachable from `urlparse`. -/
def splitNetloc (l : List Char) : Except Unit (String × List Char) :=
  match l with
  | '/' :: '/' :: rest =>
    let nl := rest.takeWhile (fun c => !(c == '/' || c == '?' || c == '#'))
    let rem := rest.dropWhile (fun c => !(c == '/' || c == '?' || c == '#'))
    if (nl.contains '[' && !nl.contains ']') || (nl.contains ']' && !nl.contains '[') then
      .error ()
    else .ok (String.mk nl, rem)
  | _ => .ok ("", l)

/-- Fragment split of `urlsplit` (`url.split('#', 1)` when `#` occurs). -/
def splitFrag (l : List Char) : List Char × String :=
  match splitFirst '#' l with
  | some (a, b) => (a, String.mk b)
  | none => (l, "")

/-- Query split of `urlsplit` (`url.split('?', 1)` when `?` occurs). -/
def splitQuery (l : List Char) : List Char × String :=
  match splitFirst '?' l with
  | some (a, b) => (a, String.mk b)
  | none => (l, "")

/-- Schemes for which `urlparse` splits `;params` from the path
(`urllib.parse.uses_params`). -/
def usesParams (scheme : String) : Bool :=
  ["", "ftp", "hdl", "prospero", "http", "imap", "https", "shttp", "rtsp",
   "rtspu", "sip", "sips", "mms", "sftp", "tel"].contains scheme

/-- `urllib.parse._splitparams`: split `;params` out of the last path
segment (only called when `';'` is in the path). -/
def splitParams (l : List Char) : String × String :=
  if l.contains ';' then
    if l.contains '/' then
      match lastIdxOf? '/' l with
      | some j =>
        match findFrom ';' j l with
        | some i => (String.mk (l.take i), String.mk (l.drop (i + 1)))
        | none => (String.mk l, "")
      | none => (String.mk l, "")
    else
      match idxOf? ';' l with
      | some i => (String.mk (l.take i), String.mk (l.drop (i + 1)))
      | none => (String.mk l, "")
  else (String.mk l, "")

/-- Model of `urllib.parse.urlparse`.  The only modelled failure is the
`ValueError("Invalid IPv6 URL")` raised on a bracket mismatch in the netloc;
`app.py` only ever catches the exception, so `Except.error ()` stands for
any `urlparse` exception. -/
def pyUrlparse (s : String) : Except Unit PyUrl :=
  let l := removeUnsafe s.toList
  let sl := splitScheme l
  match splitNetloc sl.2 with
  | .error _ => .error ()
  | .ok (netloc, l2) =>
    let lf := splitFrag l2
    let lq := splitQuery lf.1
    let pp := if usesParams sl.1 then splitParams lq.1 else (String.mk lq.1, "")
    .ok ⟨sl.1, netloc, pp.1, pp.2, lq.2, lf.2⟩

/-- Model of `ParseResult.geturl()` (`urlunparse` composed with `urlunsplit`). -/
def pyUrlunparse (u : PyUrl) : String :=
  let url0 := if u.params ≠ "" then u.path ++ ";" ++ u.params else u.path
  let url1 :=
    if u.netloc ≠ "" || pyStarts url0 "//" then
      "//" ++ u.netloc ++
        (if url0 ≠ "" && !pyStarts url0 "/" then "/" ++ url0 else url0)
    else url0
  let url2 := if u.scheme ≠ "" then u.scheme ++ ":" ++ url1 else url1
  let url3 := if u.query ≠ "" then url2 ++ "?" ++ u.query else url2
  if u.fragment ≠ "" then url3 ++ "#" ++ u.fragment else url3

/-! ## Model of `parse_qs` / `unquote` -/

/-- Value of a hexadecimal digit (code points 0-9, a-f, A-F). -/
def pyHexDigit (c : Char) : Option Nat :=
  let n := c.toNat
  if 48 ≤ n && n ≤ 57 then some (n - 48)
  else if 97 ≤ n && n ≤ 102 then some (n - 87)
  else if 65 ≤ n && n ≤ 70 then some (n - 55)
  else none

/-- Percent-escape scanning for `unquote`: each valid `%XX` becomes a byte
(`Sum.inr`), other characters stay literal (`Sum.inl`). -/
def pctTokens : List Char → List (Sum Char Nat)
  | '%' :: a :: b :: rest =>
    match pyHexDigit a, pyHexDigit b with
    | some x, some y => Sum.inr (16 * x + y) :: pctTokens rest
    | _, _ => Sum.inl '%' :: pctTokens (a :: b :: rest)
  | c :: rest => Sum.inl c :: pctTokens rest
  | [] => []

/-- UTF-8 decoding of a byte run with replacement of malformed input by
U+FFFD, modelling `bytes.decode('utf-8', errors='replace')`.  (Overlong
encodings and surrogates are not specially rejected; the strings handled
by the program are ASCII, where the two decoders agree.)  Fuel-recursive
(every step consumes at least one byte) so that it reduces in the kernel. -/
def utf8DecodeAux : Nat → List Nat → List Char
  | 0, _ => []
  | _, [] => []
  | fuel + 1, b :: rest =>
    if b < 0x80 then
      Char.ofNat b :: utf8DecodeAux fuel rest
    else if 0xc0 ≤ b && b ≤ 0xdf then
      match rest with
      | c :: r2 =>
        if 0x80 ≤ c && c ≤ 0xbf then
          Char.ofNat ((b - 0xc0) * 64 + (c - 0x80)) :: utf8DecodeAux fuel r2
        else '�' :: utf8DecodeAux fuel rest
      | [] => ['�']
    else if 0xe0 ≤ b && b ≤ 0xef then
      match rest with
      | c :: d :: r2 =>
        if (0x80 ≤ c && c ≤ 0xbf) && (0x80 ≤ d && d ≤ 0xbf) then
          let n := (b - 0xe0) * 4096 + (c - 0x80) * 64 + (d - 0x80)
          (if n.isValidChar then Char.ofNat n else '�') :: utf8DecodeAux fuel r2
        else '�' :: utf8DecodeAux fuel rest
      | _ => ['�']
    else if 0xf0 ≤ b && b ≤ 0xf7 then
      match rest with
      | c :: d :: e :: r2 =>
        if ((0x80 ≤ c && c ≤ 0xbf) && (0x80 ≤ d && d ≤ 0xbf)) && (0x80 ≤ e && e ≤ 0xbf) then
          let n := (b - 0xf0) * 262144 + (c - 0x80) * 4096 + (d - 0x80) * 64 + (e - 0x80)
          (if n.isValidChar then Char.ofNat n else '�') :: utf8DecodeAux fuel r2
        else '�' :: utf8DecodeAux fuel rest
      | _ => ['�']
    else '�' :: utf8DecodeAux fuel rest

/-- UTF-8 decode a byte list with replacement. -/
def utf8Decode (l : List Nat) : List Char := utf8DecodeAux l.length l

/-- Regroup the token stream: maximal byte runs are UTF-8 decoded,
literal characters pass through; `pending` holds the reversed current run. -/
def pctRegroup (pending : List Nat) : List (Sum Char Nat) → List Char
  | [] => utf8Decode pending.reverse
  | Sum.inr b :: rest => pctRegroup (b :: pending) rest
  | Sum.inl c :: rest => utf8Decode pending.reverse ++ c :: pctRegroup [] rest

/-- Model of `urllib.parse.unquote` (encoding `utf-8`, errors `replace`). -/
def pyUnquote (s : String) : String :=
  String.mk (pctRegroup [] (pctTokens s.toList))

/-- The `+` to space replacement `parse_qsl` applies before unquoting. -/
def plusSpace (l : List Char) : List Char :=
  l.map (fun c => if c == '+' then ' ' else c)

/-- Per-field logic of `parse_qsl` with default flags: an empty field is
skipped, a field without `=` is skipped (`keep_blank_values=False`,
`strict_parsing=False`), a field with an empty value is skipped, and name
and value are `+`-decoded and unquoted. -/
def fieldPair? (f : List Char) : Option (String × String) :=
  if f.isEmpty then none
  else
    match splitFirst '=' f with
    | none => none
    | some (n, v) =>
      if v.isEmpty then none
      else some (pyUnquote (String.mk (plusSpace n)), pyUnquote (String.mk (plusSpace v)))

/-- Model of `urllib.parse.parse_qsl` with default arguments
(split on `&`, then the per-field logic of `fieldPair?`). -/
def parse_qsl (q : String) : List (String × String) :=
  (splitChar '&' q.toList).filterMap fieldPair?

/-- One dict insertion step of `parse_qs`: append the value to the entry
of the key if present, otherwise append a new entry at the end
(Python dicts preserve insertion order). -/
def qsInsert (k v : String) : List (String × List String) → List (String × List String)
  | [] => [(k, [v])]
  | (k', vs) :: rest =>
    if k' = k then (k', vs ++ [v]) :: rest else (k', vs) :: qsInsert k v rest

/-- Model of `urllib.parse.parse_qs` with default arguments: group the
`parse_qsl` pairs into an insertion-ordered association list. -/
def parse_qs (q : String) : List (String × List String) :=
  (parse_qsl q).foldl (fun acc kv => qsInsert kv.1 kv.2 acc) []

/-! ## The app's URL functions (`backend/app.py`) -/

/-- The tracking query parameters removed by `strip_tracking_params`. -/
def trackingKeys : List String :=
  ["utm_source", "utm_medium", "utm_campaign", "utm_term", "utm_content", "fbclid", "gclid"]

/-- The seven `qs.pop(k, None)` calls of `strip_tracking_params`: each
removes the entry of one key from the dict (at most one exists). -/
def popKeys (ks : List String) (d : List (String × List String)) :
    List (String × List String) :=
  ks.foldl (fun d k => d.eraseP (fun kv => kv.1 = k)) d

/-- `strip_tracking_params` from `app.py`: re-parse the URL, drop the
tracking keys from the parsed query, and rebuild `k=v[0]` joined by `&`;
any exception (only `urlparse` can raise here) returns the URL unchanged. -/
def strip_tracking_params (url : String) : String :=
  match pyUrlparse url with
  | .error _ => url
  | .ok p =>
    if p.query = "" then url
    else
      let qs := popKeys trackingKeys (parse_qs p.query)
      let new_q := String.intercalate "&" (qs.map (fun kv => kv.1 ++ "=" ++ kv.2.headD ""))
      pyUrlunparse { p with query := new_q }

/-- `re.sub(r"dl=\d", "dl=1", q)`: replace every `dl=` followed by a digit
by `dl=1`, scanning left to right (on no match at a position the scan
advances one character).  Fuel-recursive so that it reduces in the kernel. -/
def dlSubAux : Nat → List Char → List Char
  | 0, _ => []
  | _, [] => []
  | fuel + 1, 'd' :: rest =>
    match rest with
    | 'l' :: '=' :: c :: rest2 =>
      if c.isDigit then 'd' :: 'l' :: '=' :: '1' :: dlSubAux fuel rest2
      else 'd' :: dlSubAux fuel rest
    | _ => 'd' :: dlSubAux fuel rest
  | fuel + 1, c :: rest => c :: dlSubAux fuel rest

/-- `re.sub(r"dl=\d", "dl=1", ·)` on a string. -/
def dlSubStr (q : String) : String := String.mk (dlSubAux q.toList.length q.toList)

/-- The `seen`/`uniq` de-duplication loop at the end of `drive_fetch_plan`
(first occurrence wins), with the `seen` set as a list. -/
def pyDedupAux (seen : List String) : List String → List String
  | [] => []
  | a :: as =>
    if seen.contains a then pyDedupAux seen as
    else a :: pyDedupAux (a :: seen) as

/-- De-duplicate preserving first occurrence. -/
def pyDedup (l : List String) : List String := pyDedupAux [] l

/-- Lookup in the parsed-query dict (`k in qs` / `qs[k]` / `qs.get(k, d)`). -/
def lookupQS (k : String) (qs : List (String × List String)) : Option (List String) :=
  (qs.find? (fun kv => kv.1 = k)).map (·.2)

/-- `drive_fetch_plan` from `app.py`.  `qs.get("resourcekey", [None])[0]`
yields `None` when absent; both `None` and the unreachable empty string are
falsy in `if rk:`, so the absent case is modelled by `""`. -/
def drive_fetch_plan (p : PyUrl) (qs : List (String × List String)) : List String :=
  let c0 := [pyUrlunparse p]
  let file_id : String :=
    if pyStarts p.path "/file/d/" then
      let parts := splitChar '/' p.path.toList
      if 3 < parts.length then String.mk (parts.getD 3 []) else ""
    else if pyStarts p.path "/open" && (lookupQS "id" qs).isSome then
      ((lookupQS "id" qs).getD []).headD ""
    else if pyStarts p.path "/uc" && (lookupQS "id" qs).isSome then
      ((lookupQS "id" qs).getD []).headD ""
    else ""
  let c1 :=
    if file_id ≠ "" then
      let rk := ((lookupQS "resourcekey" qs).getD [""]).headD ""
      let q := "export=download&id=" ++ file_id ++
        (if rk ≠ "" then "&resourcekey=" ++ rk else "")
      c0 ++ ["https://drive.google.com/uc?" ++ q]
    else c0
  pyDedup c1

/-- `build_fetch_plan` from `app.py`: display URL plus ordered fetch
candidates.  The `try`/`except` wrapping the body is the `Except` match
(`urlparse` is the only raising operation in the body). -/
def build_fetch_plan (raw_url : String) : String × List String :=
  let display := pyStrip raw_url
  if display = "" then ("", [])
  else
    match pyUrlparse display with
    | .error _ => (display, [display])
    | .ok p =>
      let host := asciiLowerStr p.netloc
      let qs := parse_qs p.query
      if strContains "drive.google.com" host then
        (display, drive_fetch_plan p qs)
      else if strContains "dropbox.com" host then
        let cand := if strContains "dl=" p.query then { p with query := dlSubStr p.query } else p
        (display, [display, pyUrlunparse cand])
      else
        let stripped := strip_tracking_params display
        if stripped ≠ display then (display, [display, stripped])
        else (display, [display])

/-! ## Worksheet model and `extract_url_from_cell` / `find_final_col` -/

/-- Value of a worksheet cell: no value, a string, or a non-string value
(number, date, ...). -/
inductive CellVal
  | blank
  | str (s : String)
  | other
deriving DecidableEq

/-- A worksheet cell: its value and the target of an attached hyperlink
object, if any (`some ""` models a hyperlink whose target is falsy). -/
structure Cell where
  value : CellVal := .blank
  hyperlink : Option String := none
deriving DecidableEq

/-- A worksheet: rows of cells, row `r` (1-based) being `rows[r-1]`,
column `c` (1-based) being position `c-1` in its row; `max_row` is the
number of rows.  Trailing absent cells of a row are simply missing. -/
structure Sheet where
  rows : List (List Cell)

/-- The case-insensitive search `re.search(r'HYPERLINK\(\s*"([^"]+)"', s, re.I)`:
try to match at the current position, returning the first capture group. -/
def hyperMatchAt (l : List Char) : Option String :=
  if listStarts "hyperlink(".toList (l.map asciiLower) then
    let after := (l.drop 10).dropWhile pySpace
    match after with
    | '"' :: rest =>
      let captured := rest.takeWhile (fun c => !(c == '"'))
      let remaining := rest.dropWhile (fun c => !(c == '"'))
      if captured.isEmpty then none
      else match remaining with
        | '"' :: _ => some (String.mk captured)
        | _ => none
    | _ => none
  else none

/-- `re.search`: try `hyperMatchAt` at every position, left to right. -/
def hyperSearch : List Char → Option String
  | [] => hyperMatchAt []
  | c :: cs =>
    match hyperMatchAt (c :: cs) with
    | some r => some r
    | none => hyperSearch cs

/-- The value-based part of `extract_url_from_cell` (after the hyperlink
attribute check): formula `HYPERLINK("url", ...)` first, then plain
`http(s)://` text. -/
def urlFromValue : CellVal → String
  | .str v =>
    let s := pyStrip v
    if s = "" then ""
    else
      match hyperSearch s.toList with
      | some url => pyStrip url
      | none =>
        if pyStarts s "http://" || pyStarts s "https://" then s else ""
  | _ => ""

/-- `extract_url_from_cell` from `app.py`: a truthy hyperlink target wins,
otherwise the cell value is inspected. -/
def extract_url_from_cell (c : Cell) : String :=
  match c.hyperlink with
  | some t => if t = "" then urlFromValue c.value else pyStrip t
  | none => urlFromValue c.value

/-- Does a cell match the header test of `find_final_col`
(`isinstance(val, str) and val.strip().lower().startswith("final")`)? -/
def isFinalCell (c : Cell) : Bool :=
  match c.value with
  | .str s => pyStarts (asciiLowerStr (pyStrip s)) "final"
  | _ => false

/-- Left-to-right scan of one row; `col` is the 1-based column of the
first listed cell. -/
def findInRow : List Cell → Nat → Option Nat
  | [], _ => none
  | c :: rest, col => if isFinalCell c then some col else findInRow rest (col + 1)

/-- Scan `fuel` rows starting at row `r` (1-based). -/
def scanRows (ws : Sheet) : Nat → Nat → Option (Nat × Nat)
  | _, 0 => none
  | r, fuel + 1 =>
    match findInRow (ws.rows.getD (r - 1) []) 1 with
    | some c => some (r, c)
    | none => scanRows ws (r + 1) fuel

/-- The scan bound `min(ws.max_row or 1, 500)`  (an empty `max_row` counts
as 1, as in the code's `or 1`). -/
def sheetBound (ws : Sheet) : Nat := min (max ws.rows.length 1) 500

/-- `find_final_col` from `app.py`: scan rows `1..sheetBound`, each row
left to right, and return the first matching `(row, column)`. -/
def find_final_col (ws : Sheet) : Option (Nat × Nat) :=
  scanRows ws 1 (sheetBound ws)

/-- The cell at 1-based `(r, c)`; absent positions are blank cells. -/
def cellAt (ws : Sheet) (r c : Nat) : Cell :=
  (ws.rows.getD (r - 1) []).getD (c - 1) {}

/-- Does the cell at 1-based `(r, c)` satisfy the header test? -/
def matchesAt (ws : Sheet) (r c : Nat) : Bool := isFinalCell (cellAt ws r c)

/-! ## Image normalization model and the per-sheet result walk -/

/-- A fetched payload, as seen by PIL: either image data with a mode and a
truncation flag, or bytes PIL cannot identify as an image. -/
inductive ImgData
  | image (mode : String) (truncated : Bool)
  | invalid
deriving DecidableEq

/-- A JPEG produced by `img.save(out, format="JPEG", quality=95)`. -/
structure Jpeg where
  mode : String
  quality : Nat
deriving DecidableEq

/-- Model of the PIL decode/re-encode in `upload_excel`
(`Image.open`, mode conversion, `save(format="JPEG", quality=95)`),
parametrized by `ImageFile.LOAD_TRUNCATED_IMAGES`: unidentifiable bytes
raise (`none`); truncated-but-identified image data raises during the
full decode forced by `save` if and only if the flag is off; otherwise a
JPEG results, converted to RGB unless the mode is RGB or L. -/
def pilToJpeg (loadTruncatedImages : Bool) : ImgData → Option Jpeg
  | .invalid => none
  | .image mode truncated =>
    if truncated && !loadTruncatedImages then none
    else some ⟨if mode = "RGB" || mode = "L" then mode else "RGB", 95⟩

/-- The decode actually run by `app.py`, which sets
`ImageFile.LOAD_TRUNCATED_IMAGES = True` at import time (line 18). -/
def appDecode : ImgData → Option Jpeg := pilToJpeg true

/-- Archive entry name `f"final_image_{seq}.jpg"`. -/
def imgName (seq : Nat) : String := "final_image_" ++ toString seq ++ ".jpg"

/-- The result walk of `upload_excel` for one sheet (lines 371-387): walk
`zip(plans, results)` in order with the success counter `seq`; a falsy
payload or a decode failure appends a failure record `(sheet, display)`
and does not advance `seq`; a success writes `final_image_<seq>.jpg` and
increments `seq`.  Returns (entry names, failure records). -/
def processRows (decode : ImgData → Option Jpeg) (sheet : String) :
    Nat → List (String × Option ImgData) → List String × List (String × String)
  | _, [] => ([], [])
  | seq, (d, none) :: rest =>
    let r := processRows decode sheet seq rest
    (r.1, (sheet, d) :: r.2)
  | seq, (d, some payload) :: rest =>
    match decode payload with
    | none =>
      let r := processRows decode sheet seq rest
      (r.1, (sheet, d) :: r.2)
    | some _ =>
      let r := processRows decode sheet (seq + 1) rest
      (imgName seq :: r.1, r.2)

/-- Number of rows that both fetched (truthy payload) and decoded. -/
def successCount (decode : ImgData → Option Jpeg)
    (rows : List (String × Option ImgData)) : Nat :=
  rows.countP (fun row =>
    match row.2 with
    | some payload => (decode payload).isSome
    | none => false)

/-- Plan building of `upload_excel` for one sheet (lines 356-363): walk the
rows below the header in the found column, extract a URL, skip empty ones,
and keep the plans with a non-empty candidate list. -/
def sheetPlans (ws : Sheet) (headerRow col : Nat) : List (String × List String) :=
  ((List.range (ws.rows.length - headerRow)).map (fun i => headerRow + 1 + i)).filterMap
    (fun r =>
      let raw := extract_url_from_cell (cellAt ws r col)
      if raw = "" then none
      else
        let plan := build_fetch_plan raw
        if plan.2.isEmpty then none else some plan)

/-- One sheet of `upload_excel` (lines 349-387), with the network fetch
abstracted by `fetch : candidates → payload option`: no header column or
no plans means no entries and no failures; otherwise the result walk runs
with the counter starting at 1. -/
def processSheet (fetch : List String → Option ImgData) (name : String) (ws : Sheet) :
    List String × List (String × String) :=
  match find_final_col ws with
  | none => ([], [])
  | some (headerRow, col) =>
    let plans := sheetPlans ws headerRow col
    if plans.isEmpty then ([], [])
    else processRows appDecode name 1 (plans.map (fun plan => (plan.1, fetch plan.2)))

/-! ## Small-step model of the semaphore-gated fetching

`upload_excel` processes sheets one at a time: inside the per-sheet loop it
creates a fresh `asyncio.Semaphore(10)` (line 368) and awaits
`asyncio.gather` over `fetch_one` for all the sheet's plans before moving
on.  `fetch_one` tries its candidates in order, entering `async with sem`
(acquire) before issuing each request and leaving it (release) on success
or on a swallowed exception.  The model: a task per plan, stepping through
candidate indices; a task holds the gate exactly while `inflight`; a new
gate (numbered by `gate`) is allocated when the upload moves to the next
sheet, which requires every task of the current sheet to be done. -/

/-- State of one `fetch_one` task: about to try candidate `next` (not
holding the semaphore), holding it with a request in flight, or finished. -/
inductive TState
  | idle (next : Nat)
  | inflight (cur : Nat)
  | done (ok : Bool)
deriving DecidableEq

/-- A task: how many candidate URLs its plan has, and its state. -/
structure PlanTask where
  nCand : Nat
  st : TState
deriving DecidableEq

/-- Is a task holding the semaphore (request in flight)? -/
def isInflight : TState → Bool
  | .inflight _ => true
  | _ => false

/-- Is a task finished? -/
def isDone : TState → Bool
  | .done _ => true
  | _ => false

/-- Number of requests in flight, i.e. semaphore permits held. -/
def inflightCount (ts : List PlanTask) : Nat :=
  ts.countP (fun t => isInflight t.st)

/-- One scheduler step inside one sheet's `asyncio.gather`, with the
semaphore capacity `cap`: a task may acquire the gate for its next
candidate only when fewer than `cap` permits are held; a request in
flight may complete with success (task done) or failure (move to the next
candidate), releasing the gate either way; a task out of candidates
finishes with no payload. -/
inductive SheetStep (cap : Nat) : List PlanTask → List PlanTask → Prop
  | acquire (ts : List PlanTask) (i n nc : Nat) :
      ts.get? i = some ⟨nc, .idle n⟩ → n < nc → inflightCount ts < cap →
      SheetStep cap ts (ts.set i ⟨nc, .inflight n⟩)
  | succeed (ts : List PlanTask) (i n nc : Nat) :
      ts.get? i = some ⟨nc, .inflight n⟩ →
      SheetStep cap ts (ts.set i ⟨nc, .done true⟩)
  | fail (ts : List PlanTask) (i n nc : Nat) :
      ts.get? i = some ⟨nc, .inflight n⟩ →
      SheetStep cap ts (ts.set i ⟨nc, .idle (n + 1)⟩)
  | exhaust (ts : List PlanTask) (i n nc : Nat) :
      ts.get? i = some ⟨nc, .idle n⟩ → nc ≤ n →
      SheetStep cap ts (ts.set i ⟨nc, .done false⟩)

/-- State of the whole upload: the index of the semaphore currently in use
(one fresh semaphore per sheet iteration), the current sheet's tasks, and
the plans' candidate counts of the sheets not yet started. -/
structure UploadState where
  gate : Nat
  tasks : List PlanTask
  pending : List (List Nat)
deriving DecidableEq

/-- Fresh tasks for a sheet with the given candidate counts. -/
def freshTasks (ns : List Nat) : List PlanTask :=
  ns.map (fun n => ⟨n, .idle 0⟩)

/-- One step of the upload: either a scheduler step inside the current
sheet, or — only once every task of the current sheet is done, since
`asyncio.gather` is awaited inside the loop — starting the next sheet
with a fresh semaphore. -/
inductive UploadStep (cap : Nat) : UploadState → UploadState → Prop
  | inner (g : Nat) (ts ts' : List PlanTask) (pend : List (List Nat)) :
      SheetStep cap ts ts' → UploadStep cap ⟨g, ts, pend⟩ ⟨g, ts', pend⟩
  | next (g : Nat) (ts : List PlanTask) (ns : List Nat) (rest : List (List Nat)) :
      (∀ t ∈ ts, isDone t.st = true) →
      UploadStep cap ⟨g, ts, ns :: rest⟩ ⟨g + 1, freshTasks ns, rest⟩

/-- Initial state of an upload whose sheets have the given candidate
counts per plan. -/
def initUpload (sheets : List (List Nat)) : UploadState :=
  match sheets with
  | [] => ⟨0, [], []⟩
  | ns :: rest => ⟨0, freshTasks ns, rest⟩

/-! ## Auxiliary definitions used in claim statements -/

/-- Does `build_fetch_plan` take its Dropbox branch on this input?
(Non-empty after strip, parse succeeds, host not matching the Drive test,
host containing `dropbox.com`.) -/
def dropboxBranchTaken (raw : String) : Bool :=
  if pyStrip raw = "" then false
  else
    match pyUrlparse (pyStrip raw) with
    | .error _ => false
    | .ok p =>
      !strContains "drive.google.com" (asciiLowerStr p.netloc) &&
        strContains "dropbox.com" (asciiLowerStr p.netloc)

/-- First-occurrence selection on query pairs: keep, for each key, its
first pair only, preserving the order of first occurrences (fuel-recursive;
used as the independent description against which the grouped dict of
`parse_qs` is proved equal). -/
def qsFirstAux : Nat → List (String × String) → List (String × String)
  | 0, _ => []
  | _, [] => []
  | fuel + 1, (k, v) :: rest =>
    (k, v) :: qsFirstAux fuel (rest.filter (fun kv => kv.1 != k))

/-- First pair per key, in first-occurrence order. -/
def qsFirst (pairs : List (String × String)) : List (String × String) :=
  qsFirstAux pairs.length pairs

/-- Gathering form of the `parse_qs` dict: each key with all its values in
occurrence order, keys in first-occurrence order (fuel-recursive). -/
def qsGatherAux : Nat → List (String × String) → List (String × List String)
  | 0, _ => []
  | _, [] => []
  | fuel + 1, (k, v) :: rest =>
    (k, v :: (rest.filter (fun kv => kv.1 == k)).map (·.2)) ::
      qsGatherAux fuel (rest.filter (fun kv => kv.1 != k))

/-- Gathered association list of query pairs. -/
def qsGather (pairs : List (String × String)) : List (String × List String) :=
  qsGatherAux pairs.length pairs

/-- A worksheet whose first header match is at row 2, column 2. -/
def wsExample : Sheet :=
  ⟨[[⟨.str "x", none⟩], [⟨.blank, none⟩, ⟨.str " FINAL image", none⟩]]⟩

/-! ## Lemmas about the result walk -/

/-- The entry names produced from counter value `seq` are exactly
`imgName seq, imgName (seq+1), ...`, one per success. -/
theorem processRows_fst (decode : ImgData → Option Jpeg) (sheet : String) :
    ∀ (rows : List (String × Option ImgData)) (seq : Nat),
      (processRows decode sheet seq rows).1
        = (List.range (successCount decode rows)).map (fun i => imgName (seq + i)) := by
  intro rows
  induction rows with
  | nil => intro seq; simp [processRows, successCount]
  | cons row rest ih =>
    intro seq
    obtain ⟨d, payload⟩ := row
    cases payload with
    | none => simpa [processRows, successCount, List.countP_cons] using ih seq
    | some p =>
      cases h : decode p with
      | none =>
        simp [processRows, successCount, List.countP_cons, h]
        simpa [successCount] using ih seq
      | some j =>
        have hk : successCount decode ((d, some p) :: rest) = successCount decode rest + 1 := by
          simp [successCount, List.countP_cons, h]
        have hfun : ((fun i => imgName (seq + i)) ∘ Nat.succ)
            = (fun i => imgName (seq + 1 + i)) := by
          funext i
          simp only [Function.comp_apply]
          congr 1
          omega
        rw [hk]
        simp only [processRows, h]
        rw [ih (seq + 1), List.range_succ_eq_map]
        simp only [List.map_cons, List.map_map, Nat.add_zero, hfun]

/-- Splitting the walked list splits entries and failures, with the counter
of the second part advanced by the successes of the first. -/
theorem processRows_append (decode : ImgData → Option Jpeg) (sheet : String) :
    ∀ (xs ys : List (String × Option ImgData)) (seq : Nat),
      processRows decode sheet seq (xs ++ ys)
        = ((processRows decode sheet seq xs).1
             ++ (processRows decode sheet (seq + successCount decode xs) ys).1,
           (processRows decode sheet seq xs).2
             ++ (processRows decode sheet (seq + successCount decode xs) ys).2) := by
  intro xs
  induction xs with
  | nil => intro ys seq; simp [processRows, successCount]
  | cons row rest ih =>
    intro ys seq
    obtain ⟨d, payload⟩ := row
    cases payload with
    | none =>
      simp [processRows, successCount, List.countP_cons, ih ys seq]
    | some p =>
      cases h : decode p with
      | none =>
        simp [processRows, successCount, List.countP_cons, h, ih ys seq]
      | some j =>
        have hk : successCount decode ((d, some p) :: rest) = successCount decode rest + 1 := by
          simp [successCount, List.countP_cons, h]
        have harith : seq + (successCount decode rest + 1)
            = seq + 1 + successCount decode rest := by omega
        rw [List.cons_append, hk, harith]
        simp [processRows, h, ih ys (seq + 1)]

/-- C1.  For every sheet, the archive entries written are named
`final_image_1.jpg` through `final_image_k.jpg` where `k` is the number of
results that both fetched (truthy payload) and decoded as an image: the
per-sheet counter starts at 1 and advances only on a successful write, so
the filename list is the dense gapless run `1..k` whatever the failures. -/
theorem upload_entries_dense_run (decode : ImgData → Option Jpeg) (sheet : String)
    (rows : List (String × Option ImgData)) :
    (processRows decode sheet 1 rows).1
      = (List.range (successCount decode rows)).map (fun i => imgName (i + 1)) := by
  have h := processRows_fst decode sheet rows 1
  have hmap : (fun i => imgName (1 + i)) = (fun i => imgName (i + 1)) := by
    funext i
    have : 1 + i = i + 1 := by omega
    rw [this]
  rw [h, hmap]

/-! ## The display URL (C3) and degenerate plans (C6) -/

/-- C3 counterexample: for the non-empty raw input `" https://example.com"`
(leading space) the display component is the stripped string, not the
original raw input. -/
theorem display_not_raw_counterexample :
    (" https://example.com" : String) ≠ "" ∧
      (build_fetch_plan " https://example.com").1 ≠ " https://example.com" := by
  constructor
  · decide
  · have h : (build_fetch_plan " https://example.com").1 = "https://example.com" := by rfl
    rw [h]
    decide

/-- C3 (amended).  The display component returned by `build_fetch_plan` is
the whitespace-trimmed raw input in every branch (Drive, Dropbox,
tracking-strip, parse failure); it equals the raw input exactly when the
raw input carries no leading/trailing whitespace. -/
theorem display_is_stripped_raw (raw_url : String) :
    (build_fetch_plan raw_url).1 = pyStrip raw_url := by
  unfold build_fetch_plan
  by_cases h0 : pyStrip raw_url = ""
  · simp [h0]
  · simp only [h0, if_false]
    cases hp : pyUrlparse (pyStrip raw_url) with
    | error e => simp
    | ok p =>
      simp only []
      split
      · rfl
      · split
        · rfl
        · split <;> rfl

/-- C6 counterexample: `"http://[x "` (trailing space) makes `urlparse`
raise, and the resulting plan is built from the stripped string, not from
the raw input string as the claim words it. -/
theorem degenerate_plan_counterexample :
    pyUrlparse (pyStrip "http://[x ") = .error () ∧
      build_fetch_plan "http://[x " ≠ ("http://[x ", ["http://[x "]) := by
  constructor
  · rfl
  · have h : build_fetch_plan "http://[x " = ("http://[x", ["http://[x"]) := by rfl
    rw [h]
    decide

/-- C6 (amended).  `build_fetch_plan` never raises (it is a total
function): an input that is empty after stripping yields `("", [])`, and
an input whose stripped form makes `urlparse` raise yields the degenerate
single-candidate plan `(s, [s])` where `s` is the whitespace-trimmed
input. -/
theorem build_fetch_plan_degenerate :
    (∀ raw_url, pyStrip raw_url = "" → build_fetch_plan raw_url = ("", [])) ∧
      (∀ raw_url, pyUrlparse (pyStrip raw_url) = .error () →
        build_fetch_plan raw_url = (pyStrip raw_url, [pyStrip raw_url])) := by
  constructor
  · intro raw_url h
    simp [build_fetch_plan, h]
  · intro raw_url h
    by_cases h0 : pyStrip raw_url = ""
    · rw [h0] at h
      exact absurd h (by decide)
    · simp [build_fetch_plan, h0, h]

/-- Witness for C6 (amended): both hypotheses realized on concrete inputs. -/
theorem build_fetch_plan_degenerate_witness :
    build_fetch_plan "   " = ("", []) ∧
      build_fetch_plan "http://[x" = ("http://[x", ["http://[x"]) := by
  constructor
  · exact build_fetch_plan_degenerate.1 "   " (by rfl)
  · have h := build_fetch_plan_degenerate.2 "http://[x" (by rfl)
    simpa using h

/-! ## Concrete candidate lists (C7, C9) -/

/-- C7.  Drive planning: for
`https://drive.google.com/file/d/ABC123/view?usp=sharing` the candidates
are exactly the original URL followed by
`https://drive.google.com/uc?export=download&id=ABC123` (no duplicate of
the original); `resourcekey` is appended exactly when present on the
original URL; for `/open` and `/uc` paths the identifier comes from the
`id` query parameter. -/
theorem drive_plan_cases :
    build_fetch_plan "https://drive.google.com/file/d/ABC123/view?usp=sharing"
      = ("https://drive.google.com/file/d/ABC123/view?usp=sharing",
         ["https://drive.google.com/file/d/ABC123/view?usp=sharing",
          "https://drive.google.com/uc?export=download&id=ABC123"]) ∧
    build_fetch_plan "https://drive.google.com/file/d/ABC123/view?resourcekey=0-abc"
      = ("https://drive.google.com/file/d/ABC123/view?resourcekey=0-abc",
         ["https://drive.google.com/file/d/ABC123/view?resourcekey=0-abc",
          "https://drive.google.com/uc?export=download&id=ABC123&resourcekey=0-abc"]) ∧
    build_fetch_plan "https://drive.google.com/open?id=XYZ"
      = ("https://drive.google.com/open?id=XYZ",
         ["https://drive.google.com/open?id=XYZ",
          "https://drive.google.com/uc?export=download&id=XYZ"]) ∧
    build_fetch_plan "https://drive.google.com/uc?id=XYZ"
      = ("https://drive.google.com/uc?id=XYZ",
         ["https://drive.google.com/uc?id=XYZ",
          "https://drive.google.com/uc?export=download&id=XYZ"]) :=
  ⟨rfl, rfl, rfl, rfl⟩

/-- C9.  Tracking stripping: on
`https://example.com/img.png?utm_source=x&id=5` the stripped candidate is
exactly `https://example.com/img.png?id=5`, the display keeps
`utm_source`, and the candidate list is `[display, stripped]`; when
stripping changes nothing the list is `[display]` alone. -/
theorem tracking_strip_cases :
    build_fetch_plan "https://example.com/img.png?utm_source=x&id=5"
      = ("https://example.com/img.png?utm_source=x&id=5",
         ["https://example.com/img.png?utm_source=x&id=5",
          "https://example.com/img.png?id=5"]) ∧
    strip_tracking_params "https://example.com/img.png?utm_source=x&id=5"
      = "https://example.com/img.png?id=5" ∧
    build_fetch_plan "https://example.com/img.png?id=5"
      = ("https://example.com/img.png?id=5", ["https://example.com/img.png?id=5"]) :=
  ⟨rfl, rfl, rfl⟩

/-! ## Candidate de-duplication (C2) -/

/-- Elements produced by the dedup loop avoid the `seen` accumulator. -/
theorem pyDedupAux_not_mem_seen (seen : List String) (l : List String) :
    ∀ a ∈ pyDedupAux seen l, a ∉ seen := by
  induction l generalizing seen with
  | nil => intro a ha; simp [pyDedupAux] at ha
  | cons b rest ih =>
    intro a ha
    by_cases hb : b ∈ seen
    · exact ih seen a (by simpa [pyDedupAux, hb] using ha)
    · rw [pyDedupAux, if_neg (by simpa using hb)] at ha
      rcases List.mem_cons.mp ha with ha1 | ha2
      · subst ha1; exact hb
      · intro hmem
        exact ih (b :: seen) a ha2 (List.mem_cons_of_mem b hmem)

/-- The dedup loop of `drive_fetch_plan` yields a duplicate-free list. -/
theorem pyDedupAux_nodup (seen : List String) (l : List String) :
    (pyDedupAux seen l).Nodup := by
  induction l generalizing seen with
  | nil => simp [pyDedupAux]
  | cons b rest ih =>
    by_cases hb : b ∈ seen
    · simpa [pyDedupAux, hb] using ih seen
    · rw [pyDedupAux, if_neg (by simpa using hb)]
      rw [List.nodup_cons]
      refine ⟨fun hmem => ?_, ih (b :: seen)⟩
      exact pyDedupAux_not_mem_seen (b :: seen) rest b hmem (List.mem_cons_self b seen)

/-- The dedup loop preserves order: it yields a sublist of its input. -/
theorem pyDedupAux_sublist (seen : List String) (l : List String) :
    (pyDedupAux seen l).Sublist l := by
  induction l generalizing seen with
  | nil => simp [pyDedupAux]
  | cons b rest ih =>
    by_cases hb : b ∈ seen
    · simpa [pyDedupAux, hb] using (ih seen).cons b
    · simpa [pyDedupAux, hb] using (ih (b :: seen)).cons₂ b

/-- C2 counterexample: a Dropbox URL already carrying `dl=1` (so the
rewrite changes nothing) yields a plan whose candidate list contains the
display URL twice — the rewritten candidate is not omitted when the
rewrite leaves the URL unchanged. -/
theorem dropbox_duplicate_counterexample :
    (build_fetch_plan "https://www.dropbox.com/s/abc/img.jpg?dl=1").2
      = ["https://www.dropbox.com/s/abc/img.jpg?dl=1",
         "https://www.dropbox.com/s/abc/img.jpg?dl=1"] ∧
    ¬ (build_fetch_plan "https://www.dropbox.com/s/abc/img.jpg?dl=1").2.Nodup := by
  constructor
  · rfl
  · have h : (build_fetch_plan "https://www.dropbox.com/s/abc/img.jpg?dl=1").2
        = ["https://www.dropbox.com/s/abc/img.jpg?dl=1",
           "https://www.dropbox.com/s/abc/img.jpg?dl=1"] := rfl
    rw [h]
    decide

/-- C2 (amended).  The candidate lists of retained plans are duplicate-free
and order-preserving in every branch except Dropbox: the dedup loop yields
a `Nodup` sublist, and any input not taking the Dropbox branch gets a
`Nodup` candidate list; the Dropbox branch instead always returns
`[display, rewritten]`, so it contains the display URL twice exactly when
the rewrite leaves the URL unchanged. -/
theorem candidates_nodup_except_dropbox :
    (∀ l : List String, (pyDedup l).Nodup ∧ (pyDedup l).Sublist l) ∧
      (∀ raw_url, dropboxBranchTaken raw_url = false →
        (build_fetch_plan raw_url).2.Nodup) ∧
      (∀ raw_url, dropboxBranchTaken raw_url = true →
        ∃ c, (build_fetch_plan raw_url).2 = [pyStrip raw_url, c]) := by
  refine ⟨fun l => ⟨pyDedupAux_nodup [] l, pyDedupAux_sublist [] l⟩, ?_, ?_⟩
  · intro raw_url hfalse
    unfold build_fetch_plan
    by_cases h0 : pyStrip raw_url = ""
    · simp [h0]
    · simp only [h0, if_false]
      cases hp : pyUrlparse (pyStrip raw_url) with
      | error e => simp
      | ok p =>
        simp only []
        by_cases hd : strContains "drive.google.com" (asciiLowerStr p.netloc)
        · simpa [hd] using pyDedupAux_nodup [] _
        · have hdb : strContains "dropbox.com" (asciiLowerStr p.netloc) = false := by
            unfold dropboxBranchTaken at hfalse
            simp only [h0, if_false, hp] at hfalse
            simpa [hd] using hfalse
          by_cases hs : strip_tracking_params (pyStrip raw_url) ≠ pyStrip raw_url
          · simp [hd, hdb, hs, List.nodup_cons, Ne.symm hs]
          · simp [hd, hdb, hs]
  · intro raw_url htrue
    unfold dropboxBranchTaken at htrue
    by_cases h0 : pyStrip raw_url = ""
    · simp [h0] at htrue
    · simp only [h0, if_false] at htrue
      cases hp : pyUrlparse (pyStrip raw_url) with
      | error e => rw [hp] at htrue; simp at htrue
      | ok p =>
        rw [hp] at htrue
        simp only [Bool.and_eq_true, Bool.not_eq_true'] at htrue
        obtain ⟨hd, hdb⟩ := htrue
        refine ⟨pyUrlunparse (if strContains "dl=" p.query
          then { p with query := dlSubStr p.query } else p), ?_⟩
        simp [build_fetch_plan, h0, hp, hd, hdb]

/-- Witness for C2 (amended): hypotheses realized — a non-Dropbox input
gets a duplicate-free list, a Dropbox input gets the two-element shape. -/
theorem candidates_nodup_except_dropbox_witness :
    (build_fetch_plan "https://example.com/a.png").2.Nodup ∧
      ∃ c, (build_fetch_plan "https://www.dropbox.com/s/abc/img.jpg?dl=0").2
        = [pyStrip "https://www.dropbox.com/s/abc/img.jpg?dl=0", c] := by
  constructor
  · exact candidates_nodup_except_dropbox.2.1 "https://example.com/a.png" (by rfl)
  · exact candidates_nodup_except_dropbox.2.2 "https://www.dropbox.com/s/abc/img.jpg?dl=0" (by rfl)

/-! ## Decode failures and truncated streams (C5) -/

/-- C5 counterexample: a truncated-but-identified image payload does not
raise under `ImageFile.LOAD_TRUNCATED_IMAGES = True` (app.py line 18), so
it produces the archive entry `final_image_1.jpg` and no failure record —
it is not classified as a normalization failure. -/
theorem truncated_stream_counterexample :
    processRows appDecode "Sheet1" 1 [("http://u/img.jpg", some (ImgData.image "RGB" true))]
      = (["final_image_1.jpg"], []) := by
  rfl

/-- C5 (amended).  Every payload whose decode raises is recorded as a
failure (with the plan's display URL) and processing continues with the
next item — entries are unaffected, the failures of the surrounding items
are kept in order; no decode exception propagates (the walk is a total
function).  However a truncated-but-identified stream does not raise under
`LOAD_TRUNCATED_IMAGES = True`: it yields an archive entry instead. -/
theorem decode_failure_recorded (sheet : String) (seq : Nat)
    (xs ys : List (String × Option ImgData)) (d : String) (p : ImgData)
    (h : appDecode p = none) :
    ((processRows appDecode sheet seq (xs ++ (d, some p) :: ys)).1
        = (processRows appDecode sheet seq (xs ++ ys)).1 ∧
      (processRows appDecode sheet seq (xs ++ (d, some p) :: ys)).2
        = (processRows appDecode sheet seq xs).2
            ++ (sheet, d) :: (processRows appDecode sheet
                  (seq + successCount appDecode xs) ys).2) ∧
      ∀ mode, processRows appDecode sheet seq [(d, some (ImgData.image mode true))]
        = ([imgName seq], []) := by
  refine ⟨?_, ?_⟩
  · have h1 := processRows_append appDecode sheet xs ((d, some p) :: ys) seq
    have h2 := processRows_append appDecode sheet xs ys seq
    rw [h1, h2]
    simp [processRows, h]
  · intro mode
    simp [processRows, appDecode, pilToJpeg]

/-- Witness for C5 (amended), at an unidentifiable payload: the failure is
recorded with the display URL and no entry is written. -/
theorem decode_failure_recorded_witness :
    (processRows appDecode "S" 1 [("http://u", some ImgData.invalid)]).1 = [] ∧
      (processRows appDecode "S" 1 [("http://u", some ImgData.invalid)]).2
        = [("S", "http://u")] := by
  have h := decode_failure_recorded "S" 1 [] [] "http://u" ImgData.invalid rfl
  obtain ⟨⟨h1, h2⟩, _⟩ := h
  refine ⟨?_, ?_⟩
  · simpa [processRows] using h1
  · simpa [processRows, successCount] using h2

/-! ## Column locator (C8) -/

/-- A successful row scan finds a matching cell and nothing matches
before it in the row (positions are 0-based offsets from `col`). -/
theorem findInRow_some_spec :
    ∀ (cells : List Cell) (col c0 : Nat), findInRow cells col = some c0 →
      col ≤ c0 ∧ isFinalCell (cells.getD (c0 - col) {}) = true ∧
        ∀ j, j < c0 - col → isFinalCell (cells.getD j {}) = false := by
  intro cells
  induction cells with
  | nil => intro col c0 h; simp [findInRow] at h
  | cons c rest ih =>
    intro col c0 h
    by_cases hc : isFinalCell c
    · simp only [findInRow, hc, if_true, Option.some.injEq] at h
      subst h
      refine ⟨Nat.le_refl _, ?_, ?_⟩
      · simpa using hc
      · intro j hj; omega
    · simp only [findInRow, hc, if_false] at h
      obtain ⟨hle, hhit, hbefore⟩ := ih (col + 1) c0 h
      refine ⟨by omega, ?_, ?_⟩
      · have : c0 - col = (c0 - (col + 1)) + 1 := by omega
        rw [this]
        simpa using hhit
      · intro j hj
        cases j with
        | zero => simpa using hc
        | succ j' =>
          have : j' < c0 - (col + 1) := by omega
          simpa using hbefore j' this

/-- A failed row scan means no cell of the row matches (absent positions
are blank). -/
theorem findInRow_none_spec :
    ∀ (cells : List Cell) (col : Nat), findInRow cells col = none →
      ∀ j, isFinalCell (cells.getD j {}) = false := by
  intro cells
  induction cells with
  | nil =>
    intro col h j
    simp [List.getD]
    rfl
  | cons c rest ih =>
    intro col h j
    by_cases hc : isFinalCell c
    · simp [findInRow, hc] at h
    · simp only [findInRow, hc, if_false] at h
      cases j with
      | zero => simpa using hc
      | succ j' => simpa using ih (col + 1) h j'

/-- A successful multi-row scan: the hit is inside the scanned window, the
hit row's scan returns the column, and every earlier scanned row fails. -/
theorem scanRows_some_spec (ws : Sheet) :
    ∀ (fuel r0 r c : Nat), scanRows ws r0 fuel = some (r, c) →
      r0 ≤ r ∧ r < r0 + fuel ∧ findInRow (ws.rows.getD (r - 1) []) 1 = some c ∧
        ∀ r', r0 ≤ r' → r' < r → findInRow (ws.rows.getD (r' - 1) []) 1 = none := by
  intro fuel
  induction fuel with
  | zero => intro r0 r c h; simp [scanRows] at h
  | succ fuel ih =>
    intro r0 r c h
    cases hrow : findInRow (ws.rows.getD (r0 - 1) []) 1 with
    | some c' =>
      rw [scanRows, hrow] at h
      obtain ⟨h1, h2⟩ := Prod.mk.injEq .. ▸ Option.some.injEq .. ▸ h
      refine ⟨?_, ?_, ?_, ?_⟩
      · omega
      · omega
      · rw [← h1]; simpa [← h2] using hrow
      · intro r' hge hlt; omega
    | none =>
      rw [scanRows, hrow] at h
      obtain ⟨hle, hlt, hhit, hbefore⟩ := ih (r0 + 1) r c h
      refine ⟨by omega, by omega, hhit, ?_⟩
      intro r' hge hlt'
      by_cases hr : r' = r0
      · subst hr; exact hrow
      · exact hbefore r' (by omega) hlt'

/-- A failed multi-row scan: every scanned row fails. -/
theorem scanRows_none_spec (ws : Sheet) :
    ∀ (fuel r0 : Nat), scanRows ws r0 fuel = none →
      ∀ r', r0 ≤ r' → r' < r0 + fuel → findInRow (ws.rows.getD (r' - 1) []) 1 = none := by
  intro fuel
  induction fuel with
  | zero => intro r0 h r' hge hlt; omega
  | succ fuel ih =>
    intro r0 h r' hge hlt
    cases hrow : findInRow (ws.rows.getD (r0 - 1) []) 1 with
    | some c' => rw [scanRows, hrow] at h; exact absurd h (by simp)
    | none =>
      rw [scanRows, hrow] at h
      by_cases hr : r' = r0
      · subst hr; exact hrow
      · exact ih (r0 + 1) h r' (by omega) (by omega)

/-- C8.  The column locator scans rows `1..min(max_row or 1, 500)` in
order, cells left to right, and returns the position of the first cell
whose trimmed, lowercased string value starts with `"final"`, stopping at
the first hit; if nothing matches within the bound it returns none, and
then the sheet contributes no archive entries and no failure records. -/
theorem find_final_col_first_match (ws : Sheet) :
    (∀ r c, find_final_col ws = some (r, c) →
      1 ≤ r ∧ r ≤ sheetBound ws ∧ 1 ≤ c ∧ matchesAt ws r c = true ∧
        ∀ r' c', 1 ≤ r' → 1 ≤ c' → (r' < r ∨ (r' = r ∧ c' < c)) →
          matchesAt ws r' c' = false) ∧
      (find_final_col ws = none →
        (∀ r c, 1 ≤ r → r ≤ sheetBound ws → matchesAt ws r c = false) ∧
          ∀ fetch name, processSheet fetch name ws = ([], [])) := by
  constructor
  · intro r c h
    obtain ⟨hle, hlt, hhit, hbefore⟩ := scanRows_some_spec ws (sheetBound ws) 1 r c h
    obtain ⟨hcle, hcell, hcbefore⟩ := findInRow_some_spec _ 1 c hhit
    refine ⟨hle, by omega, hcle, ?_, ?_⟩
    · simpa [matchesAt, cellAt] using hcell
    · intro r' c' hr1 hc1 hcase
      rcases hcase with hlt' | ⟨heq, hclt⟩
      · have hnone := hbefore r' hr1 hlt'
        have := findInRow_none_spec _ 1 hnone (c' - 1)
        simpa [matchesAt, cellAt] using this
      · subst heq
        have : c' - 1 < c - 1 := by omega
        have := hcbefore (c' - 1) this
        simpa [matchesAt, cellAt] using this
  · intro h
    constructor
    · intro r c hr1 hrb
      have hnone := scanRows_none_spec ws (sheetBound ws) 1 h r hr1 (by omega)
      have := findInRow_none_spec _ 1 hnone (c - 1)
      simpa [matchesAt, cellAt] using this
    · intro fetch name
      simp [processSheet, find_final_col] at h ⊢
      rw [h]

/-- Witness for C8: on a sheet whose first match is at `(2, 2)`, the
located cell matches and the cell at `(1, 1)` does not. -/
theorem find_final_col_first_match_witness :
    matchesAt wsExample 2 2 = true ∧ matchesAt wsExample 1 1 = false := by
  have h := (find_final_col_first_match wsExample).1 2 2 rfl
  exact ⟨h.2.2.2.1, h.2.2.2.2 1 1 (by decide) (by decide) (Or.inl (by decide))⟩

/-! ## The `parse_qs` dict versus first-occurrence selection (C10) -/

/-- `qsGatherAux` ignores its fuel above the list length. -/
theorem qsGatherAux_congr :
    ∀ (fuel1 : Nat) (l : List (String × String)) (fuel2 : Nat),
      l.length ≤ fuel1 → l.length ≤ fuel2 → qsGatherAux fuel1 l = qsGatherAux fuel2 l := by
  intro fuel1
  induction fuel1 with
  | zero =>
    intro l fuel2 h1 h2
    have : l = [] := List.length_eq_zero.mp (by omega)
    subst this
    cases fuel2 <;> rfl
  | succ fuel ih =>
    intro l fuel2 h1 h2
    cases l with
    | nil => cases fuel2 <;> rfl
    | cons kv rest =>
      obtain ⟨k, v⟩ := kv
      cases fuel2 with
      | zero => simp at h2
      | succ f2 =>
        simp only [qsGatherAux]
        congr 1
        exact ih (rest.filter (fun kv => kv.1 != k)) f2
          (le_trans (List.length_filter_le _ _) (by simpa using h1))
          (le_trans (List.length_filter_le _ _) (by simpa using h2))

/-- One-step equation for `qsGather`. -/
theorem qsGather_cons (k v : String) (rest : List (String × String)) :
    qsGather ((k, v) :: rest)
      = (k, v :: (rest.filter (fun kv => kv.1 == k)).map (·.2)) ::
          qsGather (rest.filter (fun kv => kv.1 != k)) := by
  unfold qsGather
  simp only [List.length_cons, qsGatherAux]
  congr 1
  exact qsGatherAux_congr rest.length _ _ (List.length_filter_le _ _) (Nat.le_refl _)

/-- `qsFirstAux` ignores its fuel above the list length. -/
theorem qsFirstAux_congr :
    ∀ (fuel1 : Nat) (l : List (String × String)) (fuel2 : Nat),
      l.length ≤ fuel1 → l.length ≤ fuel2 → qsFirstAux fuel1 l = qsFirstAux fuel2 l := by
  intro fuel1
  induction fuel1 with
  | zero =>
    intro l fuel2 h1 h2
    have : l = [] := List.length_eq_zero.mp (by omega)
    subst this
    cases fuel2 <;> rfl
  | succ fuel ih =>
    intro l fuel2 h1 h2
    cases l with
    | nil => cases fuel2 <;> rfl
    | cons kv rest =>
      obtain ⟨k, v⟩ := kv
      cases fuel2 with
      | zero => simp at h2
      | succ f2 =>
        simp only [qsFirstAux]
        congr 1
        exact ih (rest.filter (fun kv => kv.1 != k)) f2
          (le_trans (List.length_filter_le _ _) (by simpa using h1))
          (le_trans (List.length_filter_le _ _) (by simpa using h2))

/-- One-step equation for `qsFirst`. -/
theorem qsFirst_cons (k v : String) (rest : List (String × String)) :
    qsFirst ((k, v) :: rest) = (k, v) :: qsFirst (rest.filter (fun kv => kv.1 != k)) := by
  unfold qsFirst
  simp only [List.length_cons, qsFirstAux]
  congr 1
  exact qsFirstAux_congr rest.length _ _ (List.length_filter_le _ _) (Nat.le_refl _)

/-- Appending one pair at the end of the field list is exactly one dict
insertion on the gathered form. -/
theorem qsGather_snoc :
    ∀ (n : Nat) (pairs : List (String × String)), pairs.length ≤ n →
      ∀ k v, qsGather (pairs ++ [(k, v)]) = qsInsert k v (qsGather pairs) := by
  intro n
  induction n with
  | zero =>
    intro pairs hlen k v
    have : pairs = [] := List.length_eq_zero.mp (by omega)
    subst this
    rw [List.nil_append, qsGather_cons]
    rfl
  | succ n ih =>
    intro pairs hlen k v
    cases pairs with
    | nil =>
      rw [List.nil_append, qsGather_cons]
      rfl
    | cons kv0 rest =>
      obtain ⟨k0, v0⟩ := kv0
      rw [List.cons_append, qsGather_cons, qsGather_cons]
      by_cases hk : k = k0
      · subst hk
        rw [List.filter_append, List.filter_append]
        simp only [List.filter, beq_self_eq_true, bne_self_eq_false, List.map_append]
        rw [qsInsert]
        simp
      · rw [List.filter_append, List.filter_append]
        have hbeq : ((k, v).1 == k0) = false := by simpa using hk
        have hbne : ((k, v).1 != k0) = true := by simpa [bne] using hk
        simp only [List.filter, hbeq, hbne, List.map_append, List.append_nil]
        rw [qsInsert]
        have hne0 : ¬(k0 = k) := fun hcontra => hk hcontra.symm
        rw [if_neg hne0]
        congr 1
        exact ih (rest.filter (fun kv => kv.1 != k0))
          (le_trans (List.length_filter_le _ _) (by simpa using hlen)) k v

/-- The insertion-ordered dict built by `parse_qs`'s fold is the gathered
association list of the `parse_qsl` pairs. -/
theorem parse_qs_eq_qsGather (q : String) : parse_qs q = qsGather (parse_qsl q) := by
  unfold parse_qs
  generalize parse_qsl q = pairs
  induction pairs using List.reverseRecOn with
  | nil => rfl
  | append_singleton l a ih =>
    obtain ⟨k, v⟩ := a
    rw [List.foldl_append, qsGather_snoc l.length l (Nat.le_refl _) k v]
    simp [ih]

/-- Taking the first value of every key of the gathered dict is the
first-occurrence selection on the raw pairs. -/
theorem qsGather_map_head :
    ∀ (n : Nat) (pairs : List (String × String)), pairs.length ≤ n →
      (qsGather pairs).map (fun kv => (kv.1, kv.2.headD "")) = qsFirst pairs := by
  intro n
  induction n with
  | zero =>
    intro pairs hlen
    have : pairs = [] := List.length_eq_zero.mp (by omega)
    subst this
    rfl
  | succ n ih =>
    intro pairs hlen
    cases pairs with
    | nil => rfl
    | cons kv rest =>
      obtain ⟨k, v⟩ := kv
      rw [qsGather_cons, qsFirst_cons, List.map_cons, List.headD_cons]
      congr 1
      exact ih (rest.filter (fun kv => kv.1 != k))
        (le_trans (List.length_filter_le _ _) (by simpa using hlen))

/-- Keys of the gathered dict come from the pairs. -/
theorem qsGather_keys_sub :
    ∀ (n : Nat) (pairs : List (String × String)), pairs.length ≤ n →
      ∀ x, x ∈ (qsGather pairs).map (·.1) → x ∈ pairs.map (·.1) := by
  intro n
  induction n with
  | zero =>
    intro pairs hlen x hx
    have : pairs = [] := List.length_eq_zero.mp (by omega)
    subst this
    simp [qsGather, qsGatherAux] at hx
  | succ n ih =>
    intro pairs hlen x hx
    cases pairs with
    | nil => simp [qsGather, qsGatherAux] at hx
    | cons kv rest =>
      obtain ⟨k, v⟩ := kv
      rw [qsGather_cons, List.map_cons] at hx
      rcases List.mem_cons.mp hx with hx1 | hx2
      · simp [hx1]
      · have hmem := ih (rest.filter (fun kv => kv.1 != k))
          (le_trans (List.length_filter_le _ _) (by simpa using hlen)) x hx2
        obtain ⟨kv', hkv', hfst⟩ := List.mem_map.mp hmem
        right
        exact List.mem_map.mpr ⟨kv', List.mem_of_mem_filter hkv', hfst⟩

/-- The gathered dict has duplicate-free keys. -/
theorem qsGather_keys_nodup :
    ∀ (n : Nat) (pairs : List (String × String)), pairs.length ≤ n →
      ((qsGather pairs).map (·.1)).Nodup := by
  intro n
  induction n with
  | zero =>
    intro pairs hlen
    have : pairs = [] := List.length_eq_zero.mp (by omega)
    subst this
    simp [qsGather, qsGatherAux]
  | succ n ih =>
    intro pairs hlen
    cases pairs with
    | nil => simp [qsGather, qsGatherAux]
    | cons kv rest =>
      obtain ⟨k, v⟩ := kv
      rw [qsGather_cons, List.map_cons, List.nodup_cons]
      constructor
      · intro hmem
        have := qsGather_keys_sub (rest.filter (fun kv => kv.1 != k)).length _
          (Nat.le_refl _) k hmem
        obtain ⟨kv', hkv', hfst⟩ := List.mem_map.mp this
        have hpred := List.of_mem_filter hkv'
        rw [hfst] at hpred
        simp [bne] at hpred
      · exact ih (rest.filter (fun kv => kv.1 != k))
          (le_trans (List.length_filter_le _ _) (by simpa using hlen))

/-- Under duplicate-free keys, removing the entry of one key
(`dict.pop(k, None)`, here `eraseP`) is filtering that key out. -/
theorem eraseKey_eq_filter :
    ∀ (d : List (String × List String)) (k : String), ((d.map (·.1)).Nodup) →
      d.eraseP (fun kv => kv.1 = k) = d.filter (fun kv => kv.1 != k) := by
  intro d
  induction d with
  | nil => intro k h; rfl
  | cons kv rest ih =>
    intro k hnodup
    obtain ⟨k0, vs0⟩ := kv
    rw [List.map_cons, List.nodup_cons] at hnodup
    obtain ⟨hk0, hrest⟩ := hnodup
    by_cases hk : k0 = k
    · subst hk
      rw [List.eraseP_cons_of_pos (by simp), List.filter_cons]
      simp only [bne_self_eq_false, Bool.false_eq_true, if_false]
      symm
      rw [List.filter_eq_self]
      intro kv' hkv'
      have : kv'.1 ≠ k0 := by
        intro hcontra
        exact hk0 (List.mem_map.mpr ⟨kv', hkv', hcontra⟩)
      simpa [bne] using this
    · rw [List.eraseP_cons_of_neg (by simpa using hk), List.filter_cons]
      have : ((k0, vs0).1 != k) = true := by simpa [bne] using hk
      rw [this, if_pos rfl]
      rw [ih k hrest]

/-- The seven `pop` calls amount to filtering out the tracking keys. -/
theorem popKeys_eq_filter :
    ∀ (ks : List String) (d : List (String × List String)), ((d.map (·.1)).Nodup) →
      popKeys ks d = d.filter (fun kv => !(ks.contains kv.1)) := by
  intro ks
  induction ks with
  | nil =>
    intro d h
    simp only [popKeys, List.foldl_nil]
    symm
    rw [List.filter_eq_self]
    intro a _
    rfl
  | cons k ks ih =>
    intro d h
    have hstep : popKeys (k :: ks) d = popKeys ks (d.eraseP (fun kv => kv.1 = k)) := rfl
    rw [hstep, eraseKey_eq_filter d k h]
    have hnodup2 : (((d.filter (fun kv => kv.1 != k)).map (·.1)).Nodup) :=
      ((List.filter_sublist d).map (·.1)).nodup h
    rw [ih _ hnodup2, List.filter_filter]
    apply List.filter_congr
    intro kv _
    rw [List.contains_cons, Bool.not_or, Bool.and_comm]
    rfl

/-- C10.  For every URL whose parse succeeds and has a non-empty query,
the stripper's output query is built from the first value of each
surviving parameter, in first-occurrence order, with discarded fields
(no `=`, or an empty value) and the tracking keys dropped — so the
stripped candidate can differ from the original in ways beyond removal of
the seven tracking parameters (see the witness, whose query has no
tracking key at all and still changes). -/
theorem strip_keeps_first_values (url : String) (p : PyUrl)
    (h : pyUrlparse url = .ok p) (hq : p.query ≠ "") :
    strip_tracking_params url
      = pyUrlunparse { p with query := (String.intercalate "&"
          (((qsFirst (parse_qsl p.query)).filter
              (fun kv => !(trackingKeys.contains kv.1))).map
            (fun kv => kv.1 ++ "=" ++ kv.2))) } := by
  unfold strip_tracking_params
  rw [h]
  dsimp only
  rw [if_neg hq]
  suffices hlist :
      (popKeys trackingKeys (parse_qs p.query)).map (fun kv => kv.1 ++ "=" ++ kv.2.headD "")
        = ((qsFirst (parse_qsl p.query)).filter
            (fun kv => !(trackingKeys.contains kv.1))).map
          (fun kv => kv.1 ++ "=" ++ kv.2) by
    rw [hlist]
  rw [parse_qs_eq_qsGather]
  rw [popKeys_eq_filter trackingKeys _
    (qsGather_keys_nodup (parse_qsl p.query).length _ (Nat.le_refl _))]
  rw [← qsGather_map_head (parse_qsl p.query).length _ (Nat.le_refl _)]
  rw [List.filter_map, List.map_map]
  rfl

/-- Witness for C10: a query with a repeated `id`, an empty-valued `x=`
and a bare `y` — no tracking parameter present — still changes: only the
first `id` survives. -/
theorem strip_keeps_first_values_witness :
    strip_tracking_params "https://example.com/a?id=5&id=6&x=&y"
      = "https://example.com/a?id=5" ∧
      strip_tracking_params "https://example.com/a?id=5&id=6&x=&y"
        ≠ "https://example.com/a?id=5&id=6&x=&y" := by
  have h := strip_keeps_first_values "https://example.com/a?id=5&id=6&x=&y"
    ⟨"https", "example.com", "/a", "", "id=5&id=6&x=&y", ""⟩ rfl (by decide)
  constructor
  · rw [h]; rfl
  · rw [h]; decide

/-! ## The concurrency bound (C4) -/

/-- Replacing one list element can raise a `countP` by at most one. -/
theorem countP_set_le_succ {α : Type} (p : α → Bool) :
    ∀ (l : List α) (i : Nat) (a : α), (l.set i a).countP p ≤ l.countP p + 1 := by
  intro l
  induction l with
  | nil => intro i a; simp
  | cons x xs ih =>
    intro i a
    cases i with
    | zero =>
      simp only [List.set, List.countP_cons]
      have := ih 0 a
      split <;> split <;> omega
    | succ i =>
      simp only [List.set, List.countP_cons]
      have := ih i a
      omega

/-- Replacing one list element by one not counted never raises `countP`. -/
theorem countP_set_le_of_neg {α : Type} (p : α → Bool) :
    ∀ (l : List α) (i : Nat) (a : α), p a = false → (l.set i a).countP p ≤ l.countP p := by
  intro l
  induction l with
  | nil => intro i a h; simp
  | cons x xs ih =>
    intro i a h
    cases i with
    | zero =>
      simp [List.set, List.countP_cons, h]
    | succ i =>
      simp only [List.set, List.countP_cons]
      have := ih i a h
      omega

/-- A scheduler step inside one sheet preserves the semaphore bound: the
acquire guard admits a new in-flight request only below capacity, and
every other step releases. -/
theorem sheetStep_inflight_le (cap : Nat) (ts ts' : List PlanTask)
    (h : SheetStep cap ts ts') (hle : inflightCount ts ≤ cap) :
    inflightCount ts' ≤ cap := by
  cases h with
  | acquire i n nc hget hn hcap =>
    have := countP_set_le_succ (fun t => isInflight t.st) ts i ⟨nc, .inflight n⟩
    unfold inflightCount at hcap ⊢
    omega
  | succeed i n nc hget =>
    have := countP_set_le_of_neg (fun t => isInflight t.st) ts i ⟨nc, .done true⟩ (by rfl)
    unfold inflightCount at hle ⊢
    omega
  | fail i n nc hget =>
    have := countP_set_le_of_neg (fun t => isInflight t.st) ts i ⟨nc, .idle (n + 1)⟩ (by rfl)
    unfold inflightCount at hle ⊢
    omega
  | exhaust i n nc hget hn =>
    have := countP_set_le_of_neg (fun t => isInflight t.st) ts i ⟨nc, .done false⟩ (by rfl)
    unfold inflightCount at hle ⊢
    omega

/-- Fresh tasks hold no permits. -/
theorem inflightCount_freshTasks (ns : List Nat) : inflightCount (freshTasks ns) = 0 := by
  simp [inflightCount, freshTasks, List.countP_map, Function.comp, isInflight]

/-- Each upload step preserves the bound. -/
theorem uploadStep_inflight_le (cap : Nat) (s s' : UploadState)
    (h : UploadStep cap s s') (hle : inflightCount s.tasks ≤ cap) :
    inflightCount s'.tasks ≤ cap := by
  cases h with
  | inner g ts ts' pend hstep => exact sheetStep_inflight_le cap ts ts' hstep hle
  | next g ts ns rest hdone =>
    show inflightCount (freshTasks ns) ≤ cap
    rw [inflightCount_freshTasks]
    exact Nat.zero_le cap

/-- C4 (amended).  In the model of `upload_excel`'s fetching, at most 10
network attempts are in flight at any reachable instant of one upload:
although the `asyncio.Semaphore(10)` is created per sheet (not shared
across the upload), each sheet's gather is awaited before the next sheet
starts, so the per-sheet capacity-10 gates still enforce the global
bound. -/
theorem upload_inflight_bound (sheets : List (List Nat)) (s : UploadState)
    (h : Relation.ReflTransGen (UploadStep 10) (initUpload sheets) s) :
    inflightCount s.tasks ≤ 10 := by
  induction h with
  | refl =>
    cases sheets with
    | nil => simp [initUpload, inflightCount]
    | cons ns rest =>
      show inflightCount (freshTasks ns) ≤ 10
      rw [inflightCount_freshTasks]
      omega
  | tail hsteps hstep ih => exact uploadStep_inflight_le 10 _ _ hstep ih

/-- Witness for C4 (amended): the bound at a concrete reachable state with
one request in flight, reached by one acquire step. -/
theorem upload_inflight_bound_witness :
    inflightCount (UploadState.mk 0 [⟨1, .inflight 0⟩] []).tasks ≤ 10 := by
  refine upload_inflight_bound [[1]] _ (Relation.ReflTransGen.single ?_)
  exact UploadStep.inner 0 [⟨1, .idle 0⟩] [⟨1, .inflight 0⟩] []
    (SheetStep.acquire [⟨1, .idle 0⟩] 0 0 1 rfl (by omega) (by decide))

/-- C4 counterexample: in one upload of two sheets, two in-flight fetch
attempts (one per sheet) are guarded by different semaphores — gate 0
while the first sheet runs, gate 1 after the per-sheet
`asyncio.Semaphore(10)` is re-created for the second sheet — refuting the
claim's "single concurrency gate shared across the whole upload". -/
theorem per_sheet_gate_counterexample :
    Relation.ReflTransGen (UploadStep 10) (initUpload [[1], [1]])
        ⟨0, [⟨1, .inflight 0⟩], [[1]]⟩ ∧
      Relation.ReflTransGen (UploadStep 10) ⟨0, [⟨1, .inflight 0⟩], [[1]]⟩
        ⟨1, [⟨1, .inflight 0⟩], []⟩ ∧
      inflightCount (UploadState.mk 0 [⟨1, .inflight 0⟩] [[1]]).tasks = 1 ∧
      inflightCount (UploadState.mk 1 [⟨1, .inflight 0⟩] []).tasks = 1 ∧
      (UploadState.mk 0 [⟨1, .inflight 0⟩] [[1]]).gate
        ≠ (UploadState.mk 1 [⟨1, .inflight 0⟩] []).gate := by
  refine ⟨?_, ?_, rfl, rfl, by decide⟩
  · exact Relation.ReflTransGen.single
      (UploadStep.inner 0 [⟨1, .idle 0⟩] [⟨1, .inflight 0⟩] [[1]]
        (SheetStep.acquire [⟨1, .idle 0⟩] 0 0 1 rfl (by omega) (by decide)))
  · refine Relation.ReflTransGen.head
      (UploadStep.inner 0 [⟨1, .inflight 0⟩] [⟨1, .done true⟩] [[1]]
        (SheetStep.succeed [⟨1, .inflight 0⟩] 0 0 1 rfl)) ?_
    refine Relation.ReflTransGen.head
      (UploadStep.next 0 [⟨1, .done true⟩] [1] [] (by decide)) ?_
    exact Relation.ReflTransGen.single
      (UploadStep.inner 1 [⟨1, .idle 0⟩] [⟨1, .inflight 0⟩] []
        (SheetStep.acquire [⟨1, .idle 0⟩] 0 0 1 rfl (by omega) (by decide)))
